import Mathlib

/-!
LiveTraffic `TextIO.cpp`: message overlay and log formatter

A shallow embedding of `Src/TextIO.cpp`.

Conventions of the embedding

* `float` running times and colour components are rationals: on finite floats
  the comparisons of the code agree with those of the rationals.  The one
  arithmetic operation on them is the addition `now + fTimeToDisplay`, whose
  result is stored in the `float` field `fTimeDisp`; `toFloat` rounds it to
  IEEE 754 binary32 (round to nearest, ties to even).  Infinities and NaN are
  outside the model.
* `int` screen coordinates are unbounded integers.  Signed overflow is undefined
  behaviour in C++, so the defined executions are those in which every
  intermediate value is representable, and there machine and exact arithmetic
  agree.
* A C string is the list of its characters before the terminating zero.
* Window handles (`XPLMWindowID`) are natural numbers, `0` being the null
  handle.
* The two file-scope globals `g_window` and `listTexts` form the state
  `Overlay`, passed explicitly.
* Calls into the host (X-Plane SDK) appear as inputs (what the host returns) and
  outputs (what it is asked to do) of the embedded functions.
* `dataRefs.GetTotalRunningTimeSec()` is read once per line inside the loop of
  `draw_msg`; the host keeps it constant during a draw callback, so a render
  pass takes one running time `now`.
-/

namespace LiveTraffic

/-! ## Data model -/

/-- Modelled from the spec: the enumeration `logLevelTy` of `LiveTraffic.h`, which is not
among the sources.  Its six values in increasing order index the tables `COL_LVL` and
`LOG_LEVEL` of `TextIO.cpp`. -/
inductive logLevelTy where
  | logDEBUG
  | logINFO
  | logWARN
  | logERR
  | logFATAL
  | logMSG
deriving DecidableEq, Repr

/-- Numeric value of a level, as used for array indexing and `lvl < logMSG`. -/
def logLevelTy.toNat : logLevelTy → Nat
  | .logDEBUG => 0
  | .logINFO => 1
  | .logWARN => 2
  | .logERR => 3
  | .logFATAL => 4
  | .logMSG => 5

/-- A C string: the characters before the terminating zero. -/
abbrev CStr := List Char

/-- One line of the overlay, `struct dispTextTy`. -/
structure dispTextTy where
  fTimeDisp : ℚ
  lvlDisp : logLevelTy
  text : CStr
deriving DecidableEq

/-- An RGB colour, one row of `COL_LVL`. -/
abbrev Colour := ℚ × ℚ × ℚ

/-- Text colours depending on log level, the table `COL_LVL`. -/
def COL_LVL : logLevelTy → Colour
  | .logDEBUG => (0, 0, 0)
  | .logINFO => (1, 1, 1)
  | .logWARN => (1, 1, 0)
  | .logERR => (1, 0, 0)
  | .logFATAL => (63 / 100, 13 / 100, 94 / 100)
  | .logMSG => (1, 1, 1)

/-- The window constants `WIN_WIDTH`, `WIN_ROW_HEIGHT`, `WIN_FROM_TOP` and
`WIN_FROM_RIGHT`.  They are defined in a header that is not among the sources, so the
embedding takes them as a parameter. -/
structure WinConsts where
  WIN_WIDTH : Int
  WIN_ROW_HEIGHT : Int
  WIN_FROM_TOP : Int
  WIN_FROM_RIGHT : Int
deriving DecidableEq

/-- The globals of the message window: `g_window` and `listTexts`. -/
structure Overlay where
  g_window : Nat
  listTexts : List dispTextTy
deriving DecidableEq

/-- State at plugin start: `g_window = 0`, `listTexts` empty. -/
def Overlay.init : Overlay := ⟨0, []⟩

/-- Window bounds as passed to and returned by the host. -/
structure Geometry where
  left : Int
  top : Int
  right : Int
  bottom : Int
deriving DecidableEq

/-- One call of `XPLMDrawString` made by `draw_msg`. -/
structure DrawCall where
  colour : Colour
  x : Int
  y : Int
  text : CStr
  wordWrap : Int
deriving DecidableEq

/-! ## `DestroyWindow` -/

/-- Result of `DestroyWindow`: the new globals and the handle passed to
`XPLMDestroyWindow`, if that call was made. -/
structure DestroyResult where
  state : Overlay
  destroyed : Option Nat
deriving DecidableEq

/-- `DestroyWindow()`: only when a window exists, destroy it, null the handle and clear
the list. -/
def DestroyWindow (s : Overlay) : DestroyResult :=
  if s.g_window ≠ 0 then
    ⟨⟨0, []⟩, some s.g_window⟩
  else
    ⟨s, none⟩

/-! ## `draw_msg` -/

/-- The test `iter->fTimeDisp > 0 && GetTotalRunningTimeSec() <= iter->fTimeDisp`. -/
def stillValid (now : ℚ) (x : dispTextTy) : Bool :=
  decide (x.fTimeDisp > 0) && decide (now ≤ x.fTimeDisp)

/-- The `for` loop of `draw_msg` from the iterator position onwards: `t` is the current
baseline, the list is what lies from `iter` to the end.  Returns the draw calls made and
the elements that were not erased.  Every iteration, drawing or erasing, ends with
`t -= 2*WIN_ROW_HEIGHT`. -/
def drawLoop (c : WinConsts) (l : Int) (now : ℚ) :
    Int → List dispTextTy → List DrawCall × List dispTextTy
  | _, [] => ([], [])
  | t, x :: rest =>
    let r := drawLoop c l now (t - 2 * c.WIN_ROW_HEIGHT) rest
    if stillValid now x then
      (⟨COL_LVL x.lvlDisp, l, t, x.text, c.WIN_WIDTH⟩ :: r.1, x :: r.2)
    else
      r

/-- Result of one render pass. -/
structure DrawResult where
  state : Overlay
  drawn : List DrawCall
  destroyed : Option Nat
deriving DecidableEq

/-- `draw_msg(in_window_id, refcon)`.  `l` and `t` are the left and top bounds that
`XPLMGetWindowGeometry` returns for `in_window_id`, `now` the running time.  Setting the
graphics state and drawing the background box touch neither global and are left out; the
calls of `XPLMDrawString` and of `XPLMDestroyWindow` are returned. -/
def draw_msg (c : WinConsts) (s : Overlay) (in_window_id : Nat) (l t : Int) (now : ℚ) :
    DrawResult :=
  let r := drawLoop c l now (t - c.WIN_ROW_HEIGHT) s.listTexts
  let s1 : Overlay := ⟨s.g_window, r.2⟩
  if s1.g_window = in_window_id ∧ s1.listTexts = [] then
    let d := DestroyWindow s1
    ⟨d.state, r.1, d.destroyed⟩
  else
    ⟨s1, r.1, none⟩

/-- A sequence of render passes, each with its window id, bounds and running time. -/
def draw_passes (c : WinConsts) (s : Overlay) : List (Nat × Int × Int × ℚ) → Overlay
  | [] => s
  | p :: ps => draw_passes c (draw_msg c s p.1 p.2.1 p.2.2.1 p.2.2.2).state ps

/-! ## Single-precision rounding -/

/-- Exponent of the spacing between the binary32 numbers around `x`: for
`2^e <= |x| < 2^(e+1)` the spacing is `2^(e-23)`, and below `2^(-126)` (subnormal range)
it stays `2^(-149)`. -/
def ulpExp (x : ℚ) : Int := max (Int.log 2 |x|) (-126) - 23

/-- Rounding to the nearest integer, a tie going to the even one. -/
def roundHalfEven (y : ℚ) : Int :=
  if y - ⌊y⌋ < 1 / 2 then ⌊y⌋
  else if 1 / 2 < y - ⌊y⌋ then ⌊y⌋ + 1
  else if ⌊y⌋ % 2 = 0 then ⌊y⌋ else ⌊y⌋ + 1

/-- The `float` (IEEE 754 binary32) that the exact result `x` of a `float` operation is
rounded to, in the default rounding mode: the nearest multiple of the spacing around `x`,
a tie going to the even multiple.  Results that binary32 rounds to infinity (magnitude
`2^128 - 2^103` and above) are outside the model. -/
def toFloat (x : ℚ) : ℚ := (roundHalfEven (x / 2 ^ ulpExp x) : ℚ) * 2 ^ ulpExp x

/-! ## `CreateMsgWindow` -/

/-- The host call that ends `CreateMsgWindow`. -/
inductive WindowCall where
  | setWindowGeometry (w : Nat) (g : Geometry)
  | createWindowEx (g : Geometry)
deriving DecidableEq

/-- Result of `CreateMsgWindow`: new globals, returned handle, the bounds computed in
`params`, and the host call made with them. -/
structure CreateResult where
  state : Overlay
  ret : Nat
  params : Geometry
  call : WindowCall
deriving DecidableEq

/-- `CreateMsgWindow(fTimeToDisplay, lvl, szMsg, ...)`.

* `msg` is the full expansion of `szMsg` with its arguments; `vsnprintf` into
  `aszMsgTxt[500]` keeps its first 499 characters;
* `now` is `dataRefs.GetTotalRunningTimeSec()`; the sum `now + fTimeToDisplay` is a
  `float` addition and is stored in the `float` field `fTimeDisp`, hence `toFloat`;
* `screenRight`, `screenTop` are what `XPLMGetScreenSize` returns (the build
  without `XPLM300`);
* `newId` is what `XPLMCreateWindowEx` returns if it is called, `0` on failure. -/
def CreateMsgWindow (c : WinConsts) (s : Overlay) (screenRight screenTop : Int)
    (newId : Nat) (now : ℚ) (fTimeToDisplay : ℚ) (lvl : logLevelTy) (msg : CStr) :
    CreateResult :=
  let aszMsgTxt := msg.take 499
  let dispTxt : dispTextTy :=
    ⟨if fTimeToDisplay ≠ 0 then toFloat (now + fTimeToDisplay) else 0, lvl, aszMsgTxt⟩
  let listTexts := s.listTexts ++ [dispTxt]
  let top := screenTop - c.WIN_FROM_TOP
  let right := screenRight - c.WIN_FROM_RIGHT
  let left := right - c.WIN_WIDTH
  let bottom := top - c.WIN_ROW_HEIGHT * (2 * (listTexts.length : Int) + 1)
  let params : Geometry := ⟨left, top, right, bottom⟩
  if s.g_window ≠ 0 then
    ⟨⟨s.g_window, listTexts⟩, s.g_window, params, .setWindowGeometry s.g_window params⟩
  else
    ⟨⟨newId, listTexts⟩, newId, params, .createWindowEx params⟩

/-- Window constants used in the worked examples. -/
def exampleConsts : WinConsts := ⟨400, 20, 50, 0⟩

/-! ## `GetLogString` -/

/-- Level tags, the table `LOG_LEVEL`. -/
def LOG_LEVEL : logLevelTy → CStr
  | .logDEBUG => "DEBUG".toList
  | .logINFO => "INFO ".toList
  | .logWARN => "WARN ".toList
  | .logERR => "ERROR".toList
  | .logFATAL => "FATAL".toList
  | .logMSG => "MSG  ".toList

/-- C `strrchr(s, ch)` for a character `ch` other than the terminating zero: the part of
`s` that starts at the last occurrence of `ch`, or `none` (a null pointer) when `ch` does
not occur. -/
def strrchr : CStr → Char → Option CStr
  | [], _ => none
  | x :: rest, ch =>
    match strrchr rest ch with
    | some r => some r
    | none => if x = ch then some (x :: rest) else none

/-- The lines
`szFile = strrchr(szPath,'/'); if (!szFile) szFile = szPath; else szFile++;`. -/
def szFileOf (szPath : CStr) : CStr :=
  match strrchr szPath '/' with
  | none => szPath
  | some szFile => szFile.drop 1

/-- C `snprintf`/`vsnprintf` into a buffer of `size` bytes, `full` being the complete
expansion of the format: at most `size - 1` characters are stored before the terminating
zero, and nothing at all is stored when `size` is `0`.  The value is the sequence of
characters stored. -/
def snprintf (size : Nat) (full : CStr) : CStr :=
  full.take (size - 1)

/-- Expansion of `%d`. -/
def fmtInt (n : Int) : CStr := (Int.repr n).toList

/-- Size of the static buffer `aszMsg`. -/
def aszMsgSize : Nat := 2048

/-- The complete expansion of the format of the first `snprintf` of `GetLogString`:
`"%s %.1f %s %s:%d/%s: "` below `logMSG`, `"%s: "` otherwise.  `LIVE_TRAFFIC` is the
product-name macro, defined in a header that is not among the sources, and `simTime` is
the expansion of `%.1f` for `dataRefs.GetSimTime()`; both are parameters. -/
def logHeader (LIVE_TRAFFIC simTime szPath : CStr) (ln : Int) (szFunc : CStr)
    (lvl : logLevelTy) : CStr :=
  if lvl.toNat < logLevelTy.logMSG.toNat then
    LIVE_TRAFFIC ++ " ".toList ++ simTime ++ " ".toList ++ LOG_LEVEL lvl ++ " ".toList
      ++ szFileOf szPath ++ ":".toList ++ fmtInt ln ++ "/".toList ++ szFunc ++ ": ".toList
  else
    LIVE_TRAFFIC ++ ": ".toList

/-- Contents of `aszMsg` when `GetLogString` reaches `// ensure there's a trailing CR`.
`msg` is `none` when `args` is null (the code then skips `vsnprintf`, so `szMsg` leaves no
trace), else the complete expansion of `szMsg` with `args`. -/
def logBuffer (LIVE_TRAFFIC simTime szPath : CStr) (ln : Int) (szFunc : CStr)
    (lvl : logLevelTy) (msg : Option CStr) : CStr :=
  let aszMsg := snprintf aszMsgSize (logHeader LIVE_TRAFFIC simTime szPath ln szFunc lvl)
  match msg with
  | some m => aszMsg ++ snprintf (aszMsgSize - aszMsg.length - 1) m
  | none => aszMsg

/-- `GetLogString(szPath, ln, szFunc, lvl, szMsg, args)`: the string that the code leaves
at the start of `aszMsg`.  When the last character is not a newline the code stores `'\n'`
at index `l` and the terminating zero at index `l+1`, where `l` is the length so far, with
no check of `l` against the buffer size; the terminating zero of the returned string is
therefore stored at the index equal to the returned length. -/
def GetLogString (LIVE_TRAFFIC simTime szPath : CStr) (ln : Int) (szFunc : CStr)
    (lvl : logLevelTy) (msg : Option CStr) : CStr :=
  let aszMsg := logBuffer LIVE_TRAFFIC simTime szPath ln szFunc lvl msg
  if aszMsg.getLast? ≠ some '\n' then
    aszMsg ++ ['\n']
  else
    aszMsg

/-- The string ends with exactly one newline: its last character is a newline and the
character before it, if any, is not. -/
def EndsWithOneNewline (s : CStr) : Prop :=
  s.getLast? = some '\n' ∧ s.dropLast.getLast? ≠ some '\n'

/-- The string ends with two newlines or more. -/
def EndsWithTwoNewlines (s : CStr) : Prop :=
  s.getLast? = some '\n' ∧ s.dropLast.getLast? = some '\n'

/-! ## Facts about single-precision rounding -/

/-- Rounding to nearest never goes below the floor. -/
theorem floor_le_roundHalfEven (y : ℚ) : ⌊y⌋ ≤ roundHalfEven y := by
  unfold roundHalfEven
  split_ifs <;> omega

/-- Rounding to nearest never goes above the floor plus one. -/
theorem roundHalfEven_le_floor_add_one (y : ℚ) : roundHalfEven y ≤ ⌊y⌋ + 1 := by
  unfold roundHalfEven
  split_ifs <;> omega

/-- An integer is its own rounding. -/
theorem roundHalfEven_intCast (n : Int) : roundHalfEven (n : ℚ) = n := by
  simp [roundHalfEven]

/-- A value past the middle between `f` and `f + 1` rounds to `f + 1`. -/
theorem roundHalfEven_of_gt (y : ℚ) (f : Int) (h1 : (f : ℚ) + 1 / 2 < y) (h2 : y < f + 1) :
    roundHalfEven y = f + 1 := by
  have hf : ⌊y⌋ = f := by
    rw [Int.floor_eq_iff]
    constructor <;> linarith
  unfold roundHalfEven
  rw [hf]
  have hlow : ¬ (y - f < 1 / 2) := by linarith
  have hhigh : 1 / 2 < y - f := by linarith
  simp only [hlow, hhigh, if_true, if_false]

/-- The binary logarithm of a positive rational, from its binade. -/
theorem log_eq_of_bounds (x : ℚ) (e : Int) (hx : 0 < x) (hlo : (2 : ℚ) ^ e ≤ x)
    (hhi : x < (2 : ℚ) ^ (e + 1)) : Int.log 2 x = e := by
  have h1 : e ≤ Int.log 2 x :=
    (Int.zpow_le_iff_le_log (by norm_num) hx).mp (by exact_mod_cast hlo)
  have h2 : Int.log 2 x < e + 1 :=
    (Int.lt_zpow_iff_log_lt (by norm_num) hx).mp (by exact_mod_cast hhi)
  omega

/-- Evaluation of `toFloat` on a positive value of the normal range. -/
theorem toFloat_of_bounds (x : ℚ) (e n : Int) (hx : 0 < x) (hlo : (2 : ℚ) ^ e ≤ x)
    (hhi : x < (2 : ℚ) ^ (e + 1)) (he : -126 ≤ e)
    (hn : roundHalfEven (x / 2 ^ (e - 23)) = n) : toFloat x = n * 2 ^ (e - 23) := by
  have hu : ulpExp x = e - 23 := by
    unfold ulpExp
    rw [abs_of_pos hx, log_eq_of_bounds x e hx hlo hhi, max_eq_left he]
  unfold toFloat
  rw [hu, hn]

/-- A positive multiple of the spacing of its own binade is a `float`. -/
theorem toFloat_of_multiple (x : ℚ) (e n : Int) (hx : 0 < x) (hlo : (2 : ℚ) ^ e ≤ x)
    (hhi : x < (2 : ℚ) ^ (e + 1)) (he : -126 ≤ e) (hn : x = n * 2 ^ (e - 23)) :
    toFloat x = x := by
  have hq : (0 : ℚ) < 2 ^ (e - 23) := zpow_pos (by norm_num) _
  have hdiv : x / 2 ^ (e - 23) = (n : ℚ) := by
    rw [div_eq_iff hq.ne']
    exact hn
  rw [toFloat_of_bounds x e n hx hlo hhi he (by rw [hdiv, roundHalfEven_intCast])]
  exact hn.symm

/-- Rounding a non-negative value gives a non-negative `float`. -/
theorem toFloat_nonneg (x : ℚ) (hx : 0 ≤ x) : 0 ≤ toFloat x := by
  unfold toFloat
  have hq : (0 : ℚ) < 2 ^ ulpExp x := zpow_pos (by norm_num) _
  have hfloor : 0 ≤ ⌊x / 2 ^ ulpExp x⌋ := Int.floor_nonneg.mpr (div_nonneg hx hq.le)
  have hr : (0 : ℤ) ≤ roundHalfEven (x / 2 ^ ulpExp x) :=
    le_trans hfloor (floor_le_roundHalfEven _)
  have hrq : (0 : ℚ) ≤ (roundHalfEven (x / 2 ^ ulpExp x) : ℚ) := by exact_mod_cast hr
  exact mul_nonneg hrq hq.le

/-- The rounded value is at least the multiple of the spacing just below the exact one. -/
theorem floor_mul_le_toFloat (x : ℚ) :
    (⌊x / 2 ^ ulpExp x⌋ : ℚ) * 2 ^ ulpExp x ≤ toFloat x := by
  unfold toFloat
  have hq : (0 : ℚ) < 2 ^ ulpExp x := zpow_pos (by norm_num) _
  have hle : (⌊x / 2 ^ ulpExp x⌋ : ℚ) ≤ (roundHalfEven (x / 2 ^ ulpExp x) : ℚ) := by
    exact_mod_cast floor_le_roundHalfEven _
  exact mul_le_mul_of_nonneg_right hle hq.le

/-- Rounding does not pass a `float` on its way: a `float` `t` that is at most the exact
non-negative value `x` is at most the rounded value. -/
theorem float_le_toFloat (t x : ℚ) (ht : toFloat t = t) (htx : t ≤ x) (hx : 0 ≤ x) :
    t ≤ toFloat x := by
  rcases le_or_lt t 0 with ht0 | ht0
  · exact le_trans ht0 (toFloat_nonneg x hx)
  have hx0 : 0 < x := lt_of_lt_of_le ht0 htx
  have hq : (0 : ℚ) < 2 ^ ulpExp x := zpow_pos (by norm_num) _
  refine le_trans ?_ (floor_mul_le_toFloat x)
  have hlog : Int.log 2 t ≤ Int.log 2 x := Int.log_mono_right ht0 htx
  have hule : ulpExp t ≤ ulpExp x := by
    unfold ulpExp
    rw [abs_of_pos ht0, abs_of_pos hx0]
    omega
  rcases eq_or_lt_of_le hule with heq | hlt
  · have htn : t = (roundHalfEven (t / 2 ^ ulpExp t) : ℚ) * 2 ^ ulpExp x := by
      rw [← heq]
      exact ht.symm
    have hle : (roundHalfEven (t / 2 ^ ulpExp t) : ℚ) ≤ x / 2 ^ ulpExp x := by
      rw [le_div_iff₀ hq, ← htn]
      exact htx
    have hfl : roundHalfEven (t / 2 ^ ulpExp t) ≤ ⌊x / 2 ^ ulpExp x⌋ := Int.le_floor.mpr hle
    have hfl2 : (roundHalfEven (t / 2 ^ ulpExp t) : ℚ) ≤ (⌊x / 2 ^ ulpExp x⌋ : ℚ) := by
      exact_mod_cast hfl
    calc t = (roundHalfEven (t / 2 ^ ulpExp t) : ℚ) * 2 ^ ulpExp x := htn
      _ ≤ (⌊x / 2 ^ ulpExp x⌋ : ℚ) * 2 ^ ulpExp x := mul_le_mul_of_nonneg_right hfl2 hq.le
  · unfold ulpExp at hlt
    rw [abs_of_pos ht0, abs_of_pos hx0] at hlt
    have hlx : -126 < Int.log 2 x := by omega
    have hlt2 : Int.log 2 t + 1 ≤ Int.log 2 x := by omega
    have hux : ulpExp x = Int.log 2 x - 23 := by
      unfold ulpExp
      rw [abs_of_pos hx0]
      omega
    have h1 : t < (2 : ℚ) ^ (Int.log 2 t + 1) := by
      exact_mod_cast Int.lt_zpow_succ_log_self (by norm_num : 1 < 2) t
    have h2 : (2 : ℚ) ^ (Int.log 2 t + 1) ≤ 2 ^ Int.log 2 x :=
      zpow_le_zpow_right₀ (by norm_num) hlt2
    have h3 : (2 : ℚ) ^ Int.log 2 x ≤ x := by
      exact_mod_cast Int.zpow_log_le_self (by norm_num : 1 < 2) hx0
    have h4 : (2 : ℚ) ^ Int.log 2 x = ((2 ^ 23 : ℤ) : ℚ) * 2 ^ ulpExp x := by
      rw [hux, zpow_sub₀ (by norm_num)]
      push_cast
      field_simp
      norm_num
      ring
    have h5 : ((2 ^ 23 : ℤ) : ℚ) ≤ x / 2 ^ ulpExp x := by
      rw [le_div_iff₀ hq, ← h4]
      exact h3
    have h6 : (2 ^ 23 : ℤ) ≤ ⌊x / 2 ^ ulpExp x⌋ := Int.le_floor.mpr h5
    have h7 : ((2 ^ 23 : ℤ) : ℚ) ≤ (⌊x / 2 ^ ulpExp x⌋ : ℚ) := by exact_mod_cast h6
    calc t ≤ (2 : ℚ) ^ Int.log 2 x := le_of_lt (lt_of_lt_of_le h1 h2)
      _ = ((2 ^ 23 : ℤ) : ℚ) * 2 ^ ulpExp x := h4
      _ ≤ (⌊x / 2 ^ ulpExp x⌋ : ℚ) * 2 ^ ulpExp x := mul_le_mul_of_nonneg_right h7 hq.le

/-- Rounding a positive value below `2^127` gives a finite `float`, at most `2^127`. -/
theorem toFloat_le_of_lt (x : ℚ) (hx : 0 < x) (hfin : x < 2 ^ 127) :
    toFloat x ≤ 2 ^ 127 := by
  have hq : (0 : ℚ) < 2 ^ ulpExp x := zpow_pos (by norm_num) _
  have hlog : Int.log 2 x < 127 :=
    (Int.lt_zpow_iff_log_lt (by norm_num) hx).mp (by exact_mod_cast hfin)
  have hx1 : x < (2 : ℚ) ^ (Int.log 2 x + 1) := by
    exact_mod_cast Int.lt_zpow_succ_log_self (by norm_num : 1 < 2) x
  have hu : ulpExp x + 24 = max (Int.log 2 x) (-126) + 1 := by
    unfold ulpExp
    rw [abs_of_pos hx]
    omega
  have hx2 : x < (2 : ℚ) ^ (ulpExp x + 24) := by
    refine lt_of_lt_of_le hx1 (zpow_le_zpow_right₀ (by norm_num) ?_)
    omega
  have hsplit : (2 : ℚ) ^ (ulpExp x + 24) = ((2 ^ 24 : ℤ) : ℚ) * 2 ^ ulpExp x := by
    rw [zpow_add₀ (by norm_num)]
    push_cast
    norm_num
    ring
  have hdiv : x / 2 ^ ulpExp x < ((2 ^ 24 : ℤ) : ℚ) := by
    rw [div_lt_iff₀ hq, ← hsplit]
    exact hx2
  have hfloor : ⌊x / 2 ^ ulpExp x⌋ < 2 ^ 24 := Int.floor_lt.mpr hdiv
  have hround : roundHalfEven (x / 2 ^ ulpExp x) ≤ 2 ^ 24 := by
    have := roundHalfEven_le_floor_add_one (x / 2 ^ ulpExp x)
    omega
  have hroundq : (roundHalfEven (x / 2 ^ ulpExp x) : ℚ) ≤ ((2 ^ 24 : ℤ) : ℚ) := by
    exact_mod_cast hround
  calc toFloat x = (roundHalfEven (x / 2 ^ ulpExp x) : ℚ) * 2 ^ ulpExp x := rfl
    _ ≤ ((2 ^ 24 : ℤ) : ℚ) * 2 ^ ulpExp x := mul_le_mul_of_nonneg_right hroundq hq.le
    _ = (2 : ℚ) ^ (ulpExp x + 24) := hsplit.symm
    _ ≤ (2 : ℚ) ^ (127 : ℤ) := zpow_le_zpow_right₀ (by norm_num) (by omega)
    _ = 2 ^ 127 := by norm_num

/-! ## Facts about the render loop -/

/-- The loop keeps the elements that pass the validity test, in order. -/
theorem drawLoop_kept (c : WinConsts) (l : Int) (now : ℚ) (t : Int) (L : List dispTextTy) :
    (drawLoop c l now t L).2 = L.filter (stillValid now) := by
  induction L generalizing t with
  | nil => rfl
  | cons x rest ih =>
    by_cases hx : stillValid now x = true
    · simp [drawLoop, hx, ih]
    · simp [drawLoop, hx, ih]

/-- The loop draws the elements that pass the validity test, in order, each with the
colour of its level. -/
theorem drawLoop_drawn (c : WinConsts) (l : Int) (now : ℚ) (t : Int) (L : List dispTextTy) :
    (drawLoop c l now t L).1.map (fun d => (d.colour, d.text))
      = (L.filter (stillValid now)).map (fun x => (COL_LVL x.lvlDisp, x.text)) := by
  induction L generalizing t with
  | nil => rfl
  | cons x rest ih =>
    by_cases hx : stillValid now x = true
    · simp [drawLoop, hx, ih]
    · simp [drawLoop, hx, ih]

/-- The draw calls of the loop with their coordinates: the element at offset `i` from the
iterator is drawn, when valid, at baseline `t - 2*WIN_ROW_HEIGHT*i`. -/
theorem drawLoop_calls (c : WinConsts) (l : Int) (now : ℚ) (t : Int) (L : List dispTextTy)
    (n : Nat) :
    (drawLoop c l now t L).1
      = ((L.enumFrom n).filter (fun p => stillValid now p.2)).map
          (fun p => (⟨COL_LVL p.2.lvlDisp, l,
            t - 2 * c.WIN_ROW_HEIGHT * ((p.1 : Int) - (n : Int)), p.2.text, c.WIN_WIDTH⟩ :
            DrawCall)) := by
  induction L generalizing t n with
  | nil => rfl
  | cons x rest ih =>
    have hrest := ih (t - 2 * c.WIN_ROW_HEIGHT) (n + 1)
    have hshift : ∀ p : Nat × dispTextTy,
        t - 2 * c.WIN_ROW_HEIGHT - 2 * c.WIN_ROW_HEIGHT * ((p.1 : Int) - ((n + 1 : Nat) : Int))
          = t - 2 * c.WIN_ROW_HEIGHT * ((p.1 : Int) - (n : Int)) := by
      intro p
      push_cast
      ring
    simp only [hshift] at hrest
    by_cases hx : stillValid now x = true
    · simp [drawLoop, List.enumFrom, hx, hrest]
    · simp [drawLoop, List.enumFrom, hx, hrest]

/-- After a render pass the list is the old list filtered by the validity test. -/
theorem draw_msg_listTexts (c : WinConsts) (s : Overlay) (w : Nat) (l t : Int) (now : ℚ) :
    (draw_msg c s w l t now).state.listTexts = s.listTexts.filter (stillValid now) := by
  unfold draw_msg
  simp only [drawLoop_kept]
  split
  · rename_i h
    unfold DestroyWindow
    split <;> simp [h.2]
  · rfl

/-- The draw calls of a render pass are those of its loop. -/
theorem draw_msg_drawn (c : WinConsts) (s : Overlay) (w : Nat) (l t : Int) (now : ℚ) :
    (draw_msg c s w l t now).drawn
      = (drawLoop c l now (t - c.WIN_ROW_HEIGHT) s.listTexts).1 := by
  simp only [draw_msg]
  split <;> rfl

/-- The validity test of the code is the conjunction the specification names. -/
theorem stillValid_iff (now : ℚ) (x : dispTextTy) :
    stillValid now x = true ↔ (x.fTimeDisp > 0 ∧ now ≤ x.fTimeDisp) := by
  simp [stillValid]

/-- A valid line of the list is kept by a render pass and drawn in it with the colour of
its level. -/
theorem draw_msg_valid_line (c : WinConsts) (s : Overlay) (w : Nat) (l t : Int) (now : ℚ)
    (x : dispTextTy) (hx : x ∈ s.listTexts) (hv : stillValid now x = true) :
    x ∈ (draw_msg c s w l t now).state.listTexts ∧
      ∃ d ∈ (draw_msg c s w l t now).drawn,
        d.text = x.text ∧ d.colour = COL_LVL x.lvlDisp := by
  constructor
  · rw [draw_msg_listTexts]
    exact List.mem_filter.mpr ⟨hx, hv⟩
  · have hmem : (COL_LVL x.lvlDisp, x.text) ∈
        (draw_msg c s w l t now).drawn.map (fun d => (d.colour, d.text)) := by
      rw [draw_msg_drawn, drawLoop_drawn]
      exact List.mem_map.mpr ⟨x, List.mem_filter.mpr ⟨hx, hv⟩, rfl⟩
    obtain ⟨d, hd, hpair⟩ := List.mem_map.mp hmem
    have h1 : d.colour = COL_LVL x.lvlDisp := congrArg Prod.fst hpair
    have h2 : d.text = x.text := congrArg Prod.snd hpair
    exact ⟨d, hd, h2, h1⟩

/-- A line that fails the validity test is in no list a render pass leaves. -/
theorem draw_msg_invalid_line (c : WinConsts) (s : Overlay) (w : Nat) (l t : Int) (now : ℚ)
    (x : dispTextTy) (hv : stillValid now x = false) :
    x ∉ (draw_msg c s w l t now).state.listTexts := by
  rw [draw_msg_listTexts]
  intro h
  have := (List.mem_filter.mp h).2
  simp [hv] at this

/-- A line valid at the latest of a sequence of render passes survives all of them. -/
theorem draw_passes_keeps (c : WinConsts) (x : dispTextTy) (hpos : x.fTimeDisp > 0)
    (passes : List (Nat × Int × Int × ℚ)) :
    ∀ s : Overlay, x ∈ s.listTexts → (∀ p ∈ passes, p.2.2.2 ≤ x.fTimeDisp) →
      x ∈ (draw_passes c s passes).listTexts := by
  induction passes with
  | nil => intro s hx _; exact hx
  | cons p ps ih =>
    intro s hx hall
    have hp : p.2.2.2 ≤ x.fTimeDisp := hall p (List.mem_cons_self _ _)
    have hv : stillValid p.2.2.2 x = true := (stillValid_iff _ _).mpr ⟨hpos, hp⟩
    exact ih _ (draw_msg_valid_line c s p.1 p.2.1 p.2.2.1 p.2.2.2 x hx hv).1
      (fun q hq => hall q (List.mem_cons_of_mem _ hq))

/-- What `CreateMsgWindow` leaves in the list: the old lines followed by the new one. -/
theorem CreateMsgWindow_listTexts (c : WinConsts) (s : Overlay) (screenRight screenTop : Int)
    (newId : Nat) (now D : ℚ) (lvl : logLevelTy) (msg : CStr) :
    (CreateMsgWindow c s screenRight screenTop newId now D lvl msg).state.listTexts
      = s.listTexts ++ [⟨if D ≠ 0 then toFloat (now + D) else 0, lvl, msg.take 499⟩] := by
  simp only [CreateMsgWindow]
  split <;> rfl

/-- The handle that `CreateMsgWindow` returns is the one it leaves in `g_window`; the
window that the host later asks `draw_msg` to draw is this one. -/
theorem CreateMsgWindow_ret (c : WinConsts) (s : Overlay) (screenRight screenTop : Int)
    (newId : Nat) (now D : ℚ) (lvl : logLevelTy) (msg : CStr) :
    (CreateMsgWindow c s screenRight screenTop newId now D lvl msg).ret
      = (CreateMsgWindow c s screenRight screenTop newId now D lvl msg).state.g_window := by
  simp only [CreateMsgWindow]
  split <;> rfl

/-! ## The render pass keeps and draws exactly the valid lines -/

/-- C1: for every line sequence and every running time, a render pass draws exactly the
lines with `expiry > 0` and `now <= expiry`, in their original order and each with the
colour of its level, and leaves the sequence equal to the old one filtered by that
predicate; every line failing the predicate is gone after the pass. -/
theorem draw_msg_keeps_exactly_valid (c : WinConsts) (s : Overlay) (w : Nat) (l t : Int)
    (now : ℚ) :
    (draw_msg c s w l t now).drawn.map (fun d => (d.colour, d.text))
        = (s.listTexts.filter (fun x => decide (x.fTimeDisp > 0 ∧ now ≤ x.fTimeDisp))).map
            (fun x => (COL_LVL x.lvlDisp, x.text))
      ∧ (draw_msg c s w l t now).state.listTexts
        = s.listTexts.filter (fun x => decide (x.fTimeDisp > 0 ∧ now ≤ x.fTimeDisp))
      ∧ ∀ x : dispTextTy, ¬ (x.fTimeDisp > 0 ∧ now ≤ x.fTimeDisp) →
          x ∉ (draw_msg c s w l t now).state.listTexts := by
  have hpred : (fun x : dispTextTy => decide (x.fTimeDisp > 0 ∧ now ≤ x.fTimeDisp))
      = stillValid now := by
    funext x
    simp [stillValid, Bool.decide_and]
  rw [hpred]
  refine ⟨?_, draw_msg_listTexts c s w l t now, ?_⟩
  · rw [draw_msg_drawn, drawLoop_drawn]
  · intro x hx
    apply draw_msg_invalid_line
    cases hv : stillValid now x with
    | false => rfl
    | true => exact absurd ((stillValid_iff now x).mp hv) hx

/-! ## Lifetime of a posted line -/

/-- C2, as stated, fails: posted at running time 3600 with the `float` duration nearest to
0.1, the line is stored with the rounded expiry `7373005/2048 = 3600.10009765625`, which
lies above the exact sum; the render pass at the `float` running time `7373005/2048`, a
time greater than `postTime + D`, does not remove the line but keeps it and draws it. -/
theorem rounded_expiry_outlasts_exact_sum :
    (toFloat 3600 = 3600 ∧ toFloat (13421773 / 134217728) = 13421773 / 134217728
        ∧ toFloat (7373005 / 2048) = 7373005 / 2048)
      ∧ (CreateMsgWindow exampleConsts Overlay.init 1920 1080 1 3600 (13421773 / 134217728)
            .logWARN "disk at 90%".toList).state
          = ⟨1, [⟨7373005 / 2048, .logWARN, "disk at 90%".toList⟩]⟩
      ∧ (3600 : ℚ) + 13421773 / 134217728 < 7373005 / 2048
      ∧ (draw_msg exampleConsts (CreateMsgWindow exampleConsts Overlay.init 1920 1080 1 3600
            (13421773 / 134217728) .logWARN "disk at 90%".toList).state 1 1520 1030
            (7373005 / 2048)).state.listTexts
          = [⟨7373005 / 2048, .logWARN, "disk at 90%".toList⟩]
      ∧ (draw_msg exampleConsts (CreateMsgWindow exampleConsts Overlay.init 1920 1080 1 3600
            (13421773 / 134217728) .logWARN "disk at 90%".toList).state 1 1520 1030
            (7373005 / 2048)).drawn
          = [⟨(1, 1, 0), 1520, 1010, "disk at 90%".toList, 400⟩] := by
  have hsum : toFloat (3600 + 13421773 / 134217728) = 7373005 / 2048 := by
    rw [toFloat_of_bounds _ 11 14746010 (by norm_num) (by norm_num) (by norm_num)
      (by norm_num)
      (by
        have hr := roundHalfEven_of_gt
          ((3600 + 13421773 / 134217728) / 2 ^ ((11 : ℤ) - 23)) 14746009
          (by norm_num) (by norm_num)
        rw [hr]
        norm_num)]
    norm_num
  have hstate : (CreateMsgWindow exampleConsts Overlay.init 1920 1080 1 3600
      (13421773 / 134217728) .logWARN "disk at 90%".toList).state
      = ⟨1, [⟨7373005 / 2048, .logWARN, "disk at 90%".toList⟩]⟩ := by
    simp [CreateMsgWindow, Overlay.init, hsum]
  refine ⟨⟨?_, ?_, ?_⟩, hstate, by norm_num, ?_, ?_⟩
  · exact toFloat_of_multiple 3600 11 (3600 * 2 ^ 12) (by norm_num) (by norm_num)
      (by norm_num) (by norm_num) (by norm_num)
  · exact toFloat_of_multiple _ (-4) 13421773 (by norm_num) (by norm_num) (by norm_num)
      (by norm_num) (by norm_num)
  · exact toFloat_of_multiple _ 11 14746010 (by norm_num) (by norm_num) (by norm_num)
      (by norm_num) (by norm_num)
  · rw [hstate, draw_msg_listTexts]
    simp [stillValid]
  · rw [hstate, draw_msg_drawn]
    simp [drawLoop, stillValid, COL_LVL, exampleConsts]

/-- C2 as amended: a message posted at running time `postTime >= 0` with a `float`
duration `D > 0` is stored with the expiry `E`, the single-precision sum of `postTime` and
`D` (the exact sum rounded to the nearest `float`), which is positive and finite.  The
line survives every sequence of render passes at running times up to `E`; a further pass
at a running time `t <= E` keeps it and draws it with the colour of its level, and every
`float` running time `t <= postTime + D` is such a time; the first pass at a running time
`t > E` removes it. -/
theorem CreateMsgWindow_line_lifetime (c : WinConsts) (s : Overlay)
    (screenRight screenTop : Int) (newId : Nat) (postTime D : ℚ) (lvl : logLevelTy)
    (msg : CStr) (hpost : 0 ≤ postTime) (hD : 0 < D) (hDf : toFloat D = D)
    (hfin : postTime + D < 2 ^ 127) :
    (CreateMsgWindow c s screenRight screenTop newId postTime D lvl msg).state.listTexts
        = s.listTexts ++ [⟨toFloat (postTime + D), lvl, msg.take 499⟩]
      ∧ (0 < toFloat (postTime + D) ∧ toFloat (postTime + D) ≤ 2 ^ 127)
      ∧ (∀ t : ℚ, toFloat t = t → t ≤ postTime + D → t ≤ toFloat (postTime + D))
      ∧ ∀ passes : List (Nat × Int × Int × ℚ),
          (∀ p ∈ passes, p.2.2.2 ≤ toFloat (postTime + D)) →
          ∀ (w : Nat) (l t : Int) (tm : ℚ),
            (tm ≤ toFloat (postTime + D) →
              (⟨toFloat (postTime + D), lvl, msg.take 499⟩ : dispTextTy) ∈
                (draw_msg c (draw_passes c (CreateMsgWindow c s screenRight screenTop newId
                  postTime D lvl msg).state passes) w l t tm).state.listTexts
              ∧ ∃ d ∈ (draw_msg c (draw_passes c (CreateMsgWindow c s screenRight screenTop
                  newId postTime D lvl msg).state passes) w l t tm).drawn,
                  d.text = msg.take 499 ∧ d.colour = COL_LVL lvl)
            ∧ (toFloat (postTime + D) < tm →
              (⟨toFloat (postTime + D), lvl, msg.take 499⟩ : dispTextTy) ∉
                (draw_msg c (draw_passes c (CreateMsgWindow c s screenRight screenTop newId
                  postTime D lvl msg).state passes) w l t tm).state.listTexts) := by
  have hne : D ≠ 0 := ne_of_gt hD
  have hsum0 : 0 < postTime + D := by linarith
  have hlist := CreateMsgWindow_listTexts c s screenRight screenTop newId postTime D lvl msg
  simp only [hne, ne_eq, not_false_eq_true, if_true] at hlist
  have hbridge : ∀ t : ℚ, toFloat t = t → t ≤ postTime + D → t ≤ toFloat (postTime + D) :=
    fun t ht htle => float_le_toFloat t (postTime + D) ht htle hsum0.le
  have hE : 0 < toFloat (postTime + D) :=
    lt_of_lt_of_le hD (hbridge D hDf (by linarith))
  refine ⟨hlist, ⟨hE, toFloat_le_of_lt _ hsum0 hfin⟩, hbridge, ?_⟩
  intro passes hall w l t tm
  have hpos : (⟨toFloat (postTime + D), lvl, msg.take 499⟩ : dispTextTy).fTimeDisp > 0 := hE
  have hin : (⟨toFloat (postTime + D), lvl, msg.take 499⟩ : dispTextTy) ∈
      (draw_passes c (CreateMsgWindow c s screenRight screenTop newId postTime D lvl
        msg).state passes).listTexts := by
    apply draw_passes_keeps c _ hpos passes
    · rw [hlist]
      exact List.mem_append_right _ (List.mem_singleton.mpr rfl)
    · exact hall
  constructor
  · intro htm
    exact draw_msg_valid_line c _ w l t tm _ hin ((stillValid_iff _ _).mpr ⟨hpos, htm⟩)
  · intro htm
    apply draw_msg_invalid_line
    cases hv : stillValid tm ⟨toFloat (postTime + D), lvl, msg.take 499⟩ with
    | false => rfl
    | true =>
      have h2 := ((stillValid_iff _ _).mp hv).2
      exact absurd htm (not_lt.mpr h2)

/-- The example of C2: posted at running time 100 with duration 5 and level WARN, the
line has expiry 105 (the sum is a `float`, nothing is rounded away); the pass at 104 keeps
it and draws it in yellow `(1,1,0)`, the pass at 106 removes it. -/
theorem CreateMsgWindow_line_lifetime_witness :
    ((0 : ℚ) ≤ 100 ∧ (0 : ℚ) < 5 ∧ toFloat 5 = 5 ∧ (100 : ℚ) + 5 < 2 ^ 127)
      ∧ (CreateMsgWindow exampleConsts Overlay.init 1920 1080 1 100 5 .logWARN
            "disk at 90%".toList).state.listTexts
          = [⟨105, .logWARN, "disk at 90%".toList⟩]
      ∧ (draw_msg exampleConsts (CreateMsgWindow exampleConsts Overlay.init 1920 1080 1 100 5
            .logWARN "disk at 90%".toList).state 1 1520 1030 104).drawn
          = [⟨(1, 1, 0), 1520, 1010, "disk at 90%".toList, 400⟩]
      ∧ (⟨105, .logWARN, "disk at 90%".toList⟩ : dispTextTy) ∈
          (draw_msg exampleConsts (CreateMsgWindow exampleConsts Overlay.init 1920 1080 1 100 5
            .logWARN "disk at 90%".toList).state 1 1520 1030 104).state.listTexts
      ∧ (⟨105, .logWARN, "disk at 90%".toList⟩ : dispTextTy) ∉
          (draw_msg exampleConsts (draw_passes exampleConsts (CreateMsgWindow exampleConsts
            Overlay.init 1920 1080 1 100 5 .logWARN "disk at 90%".toList).state
            [(1, 1520, 1030, 104)]) 1 1520 1030 106).state.listTexts := by
  have h5 : toFloat 5 = 5 :=
    toFloat_of_multiple 5 2 (5 * 2 ^ 21) (by norm_num) (by norm_num) (by norm_num)
      (by norm_num) (by norm_num)
  have h105 : toFloat ((100 : ℚ) + 5) = 105 := by
    rw [toFloat_of_multiple (100 + 5) 6 (105 * 2 ^ 17) (by norm_num) (by norm_num)
      (by norm_num) (by norm_num) (by norm_num)]
    norm_num
  have hgen := CreateMsgWindow_line_lifetime exampleConsts Overlay.init 1920 1080 1 100 5
    .logWARN "disk at 90%".toList (by norm_num) (by norm_num) h5 (by norm_num)
  have htake : List.take 499 "disk at 90%".toList = "disk at 90%".toList := by decide
  rw [h105, htake] at hgen
  obtain ⟨hlist, -, -, hpass⟩ := hgen
  refine ⟨⟨by norm_num, by norm_num, h5, by norm_num⟩, ?_, ?_, ?_, ?_⟩
  · simpa [Overlay.init] using hlist
  · rw [draw_msg_drawn, hlist]
    simp [Overlay.init, drawLoop, stillValid, COL_LVL, exampleConsts]
    norm_num
  · exact ((hpass [] (by simp) 1 1520 1030 104).1 (by norm_num)).1
  · exact (hpass [(1, 1520, 1030, 104)] (by simp; norm_num) 1 1520 1030 106).2 (by norm_num)

/-! ## Lines posted without expiry -/

/-- C3, as stated, fails: a line posted with duration 0 into the fresh overlay is stored
with expiry 0, and the render pass at running time 11 on the window just created removes
it (and, the list being empty, destroys the window). -/
theorem zero_duration_line_does_not_persist :
    (⟨0, .logINFO, "hello".toList⟩ : dispTextTy) ∈
        (CreateMsgWindow exampleConsts Overlay.init 1920 1080 1 10 0 .logINFO
          "hello".toList).state.listTexts
      ∧ (⟨0, .logINFO, "hello".toList⟩ : dispTextTy) ∉
        (draw_msg exampleConsts (CreateMsgWindow exampleConsts Overlay.init 1920 1080 1 10 0
          .logINFO "hello".toList).state 1 1520 1030 11).state.listTexts
      ∧ (draw_msg exampleConsts (CreateMsgWindow exampleConsts Overlay.init 1920 1080 1 10 0
          .logINFO "hello".toList).state 1 1520 1030 11).state = ⟨0, []⟩ := by
  have hlist : (CreateMsgWindow exampleConsts Overlay.init 1920 1080 1 10 0 .logINFO
      "hello".toList).state = ⟨1, [⟨0, .logINFO, "hello".toList⟩]⟩ := by
    simp [CreateMsgWindow, Overlay.init]
  rw [hlist]
  refine ⟨List.mem_singleton.mpr rfl, ?_, ?_⟩
  · apply draw_msg_invalid_line
    simp [stillValid]
  · simp [draw_msg, drawLoop, stillValid, DestroyWindow]

/-- C3 as amended: a line posted with duration 0 is stored with expiry 0 whatever the
running time, and a line with expiry 0 fails the validity test at every running time: no
render pass draws anything for it, and it is in no list that a render pass leaves. -/
theorem zero_expiry_line_removed (c : WinConsts) (s : Overlay) (screenRight screenTop : Int)
    (newId : Nat) (postTime : ℚ) (lvl : logLevelTy) (msg : CStr) :
    (CreateMsgWindow c s screenRight screenTop newId postTime 0 lvl msg).state.listTexts
        = s.listTexts ++ [⟨0, lvl, msg.take 499⟩]
      ∧ ∀ (s1 : Overlay) (w : Nat) (l t : Int) (now : ℚ) (lvl1 : logLevelTy) (txt : CStr),
          (⟨0, lvl1, txt⟩ : dispTextTy) ∉ (draw_msg c s1 w l t now).state.listTexts
          ∧ (draw_msg c ⟨s1.g_window, s1.listTexts ++ [⟨0, lvl1, txt⟩]⟩ w l t now).drawn
              = (draw_msg c s1 w l t now).drawn := by
  constructor
  · simpa using CreateMsgWindow_listTexts c s screenRight screenTop newId postTime 0 lvl msg
  · intro s1 w l t now lvl1 txt
    constructor
    · apply draw_msg_invalid_line
      simp [stillValid]
    · rw [draw_msg_drawn, draw_msg_drawn, drawLoop_calls c l now _ _ 0,
        drawLoop_calls c l now _ _ 0]
      simp [List.enumFrom_append, stillValid]

/-! ## `DestroyWindow` -/

/-- C4, as stated, fails: when `XPLMCreateWindowEx` fails, `CreateMsgWindow` leaves the
new line in the list with a null handle, and `DestroyWindow` then leaves the list as it
is. -/
theorem DestroyWindow_keeps_lines_without_window :
    (CreateMsgWindow exampleConsts Overlay.init 1920 1080 0 100 5 .logWARN
        "x".toList).state.g_window = 0
      ∧ (DestroyWindow (CreateMsgWindow exampleConsts Overlay.init 1920 1080 0 100 5 .logWARN
        "x".toList).state).state.listTexts ≠ [] := by
  simp [CreateMsgWindow, Overlay.init, DestroyWindow]

/-- C4 as amended: after `DestroyWindow` the window handle is null in every state; when a
window handle existed, the host is asked to destroy that window and the list is empty
afterwards whatever its lines and their expiry times; when no handle existed nothing
changes, the list included. -/
theorem DestroyWindow_effect (s : Overlay) :
    (DestroyWindow s).state.g_window = 0
      ∧ (s.g_window ≠ 0 →
          (DestroyWindow s).state.listTexts = []
            ∧ (DestroyWindow s).destroyed = some s.g_window)
      ∧ (s.g_window = 0 →
          (DestroyWindow s).state = s ∧ (DestroyWindow s).destroyed = none) := by
  unfold DestroyWindow
  by_cases h : s.g_window = 0 <;> simp [h]

/-- Instance of C4 as amended: a window with one unexpired line. -/
theorem DestroyWindow_effect_witness :
    (DestroyWindow ⟨7, [⟨105, .logWARN, "x".toList⟩]⟩).state = ⟨0, []⟩
      ∧ (DestroyWindow ⟨7, [⟨105, .logWARN, "x".toList⟩]⟩).destroyed = some 7 := by
  have h := DestroyWindow_effect ⟨7, [⟨105, .logWARN, "x".toList⟩]⟩
  have h2 := h.2.1 (by decide)
  exact ⟨by simp [DestroyWindow], h2.2⟩

/-! ## Window handle and list after a render pass -/

/-- C5: the host calls `draw_msg` for the overlay's own window, so `in_window_id` is the
non-null handle held in `g_window`.  At the end of such a pass the handle is non-null if
and only if the list is non-empty; a pass whose loop leaves no line has the host destroy
the window and nulls the handle. -/
theorem draw_msg_handle_iff_lines (c : WinConsts) (s : Overlay) (w : Nat) (l t : Int)
    (now : ℚ) (hw : w ≠ 0) (hg : s.g_window = w) :
    ((draw_msg c s w l t now).state.g_window ≠ 0
        ↔ (draw_msg c s w l t now).state.listTexts ≠ [])
      ∧ ((draw_msg c s w l t now).state.listTexts = [] →
          (draw_msg c s w l t now).state.g_window = 0
            ∧ (draw_msg c s w l t now).destroyed = some w)
      ∧ ((draw_msg c s w l t now).state.listTexts ≠ [] →
          (draw_msg c s w l t now).state.g_window = w
            ∧ (draw_msg c s w l t now).destroyed = none) := by
  have hl := draw_msg_listTexts c s w l t now
  by_cases hempty : s.listTexts.filter (stillValid now) = []
  · have hstate : (draw_msg c s w l t now).state = ⟨0, []⟩
        ∧ (draw_msg c s w l t now).destroyed = some w := by
      simp [draw_msg, drawLoop_kept, hempty, hg, DestroyWindow, hw]
    rw [hempty] at hl
    simp [hstate.1, hstate.2]
  · have hstate : (draw_msg c s w l t now).state
          = ⟨w, s.listTexts.filter (stillValid now)⟩
        ∧ (draw_msg c s w l t now).destroyed = none := by
      simp [draw_msg, drawLoop_kept, hempty, hg]
    simp [hstate.1, hstate.2, hempty, hw]

/-- Instances of C5: window 1 with an expired and a valid line keeps its handle; with
only an expired line it is destroyed. -/
theorem draw_msg_handle_iff_lines_witness :
    ((draw_msg exampleConsts ⟨1, [⟨5, .logINFO, "old".toList⟩, ⟨20, .logINFO, "new".toList⟩]⟩
          1 1520 1030 10).state.g_window ≠ 0
        ↔ (draw_msg exampleConsts ⟨1, [⟨5, .logINFO, "old".toList⟩,
            ⟨20, .logINFO, "new".toList⟩]⟩ 1 1520 1030 10).state.listTexts ≠ [])
      ∧ (draw_msg exampleConsts ⟨1, [⟨5, .logINFO, "old".toList⟩]⟩ 1 1520 1030 10).state
          = ⟨0, []⟩ := by
  refine ⟨(draw_msg_handle_iff_lines exampleConsts _ 1 1520 1030 10 (by decide) rfl).1, ?_⟩
  simp [draw_msg, drawLoop, stillValid, DestroyWindow]
  norm_num

/-! ## Window geometry -/

/-- C6: in every call of `CreateMsgWindow` the bounds computed in `params` satisfy
`top - bottom = WIN_ROW_HEIGHT * (2*n + 1)` and `right - left = WIN_WIDTH`, where `n` is
the number of lines after the new one has been appended, one more than before; these are
the bounds handed to the host, to `XPLMSetWindowGeometry` when a window exists and to
`XPLMCreateWindowEx` when none does. -/
theorem CreateMsgWindow_geometry (c : WinConsts) (s : Overlay) (screenRight screenTop : Int)
    (newId : Nat) (now D : ℚ) (lvl : logLevelTy) (msg : CStr) :
    (CreateMsgWindow c s screenRight screenTop newId now D lvl msg).state.listTexts.length
        = s.listTexts.length + 1
      ∧ (CreateMsgWindow c s screenRight screenTop newId now D lvl msg).params.top
          - (CreateMsgWindow c s screenRight screenTop newId now D lvl msg).params.bottom
        = c.WIN_ROW_HEIGHT * (2 * ((CreateMsgWindow c s screenRight screenTop newId now D lvl
            msg).state.listTexts.length : Int) + 1)
      ∧ (CreateMsgWindow c s screenRight screenTop newId now D lvl msg).params.right
          - (CreateMsgWindow c s screenRight screenTop newId now D lvl msg).params.left
        = c.WIN_WIDTH
      ∧ (CreateMsgWindow c s screenRight screenTop newId now D lvl msg).call
        = if s.g_window ≠ 0 then
            WindowCall.setWindowGeometry s.g_window
              (CreateMsgWindow c s screenRight screenTop newId now D lvl msg).params
          else
            WindowCall.createWindowEx
              (CreateMsgWindow c s screenRight screenTop newId now D lvl msg).params := by
  by_cases h : s.g_window = 0
  · simp [CreateMsgWindow, h]
  · simp [CreateMsgWindow, h]

/-! ## Vertical placement of the drawn lines -/

/-- C10, as stated, fails: with an expired line before a valid one, the only line drawn
(the one with index `k = 0` among the drawn lines) is drawn at `windowTop - 3*WIN_ROW_HEIGHT`
and not at `windowTop - WIN_ROW_HEIGHT`. -/
theorem draw_msg_gap_after_expired_line :
    (draw_msg exampleConsts ⟨1, [⟨5, .logINFO, "old".toList⟩, ⟨20, .logINFO, "new".toList⟩]⟩
        1 1520 1030 10).drawn
      = [⟨(1, 1, 1), 1520, 1030 - 3 * exampleConsts.WIN_ROW_HEIGHT, "new".toList, 400⟩]
    ∧ (1030 : Int) - 3 * exampleConsts.WIN_ROW_HEIGHT
      ≠ 1030 - exampleConsts.WIN_ROW_HEIGHT - 2 * exampleConsts.WIN_ROW_HEIGHT * 0 := by
  constructor
  · rw [draw_msg_drawn]
    simp [drawLoop, stillValid, COL_LVL, exampleConsts]
    norm_num
  · decide

/-- C10 as amended: in every render pass the line at position `i` of the sequence as it
stands when the pass starts is drawn, if it is valid, at vertical coordinate
`windowTop - WIN_ROW_HEIGHT - 2*WIN_ROW_HEIGHT*i`, with the window's left bound as
horizontal coordinate and `WIN_WIDTH` as wrap width; a line removed in the pass still
takes up its two rows in that pass.  In particular, when every line of the sequence is
valid, the `k`-th drawn line is at `windowTop - WIN_ROW_HEIGHT - 2*WIN_ROW_HEIGHT*k`. -/
theorem draw_msg_positions (c : WinConsts) (s : Overlay) (w : Nat) (l t : Int) (now : ℚ) :
    (draw_msg c s w l t now).drawn
        = ((s.listTexts.enum).filter (fun p => stillValid now p.2)).map
            (fun p => (⟨COL_LVL p.2.lvlDisp, l,
              t - c.WIN_ROW_HEIGHT - 2 * c.WIN_ROW_HEIGHT * (p.1 : Int), p.2.text,
              c.WIN_WIDTH⟩ : DrawCall))
      ∧ ((∀ x ∈ s.listTexts, stillValid now x = true) →
          (draw_msg c s w l t now).drawn.map (fun d => d.y)
            = (List.range s.listTexts.length).map
                (fun k : Nat => t - c.WIN_ROW_HEIGHT - 2 * c.WIN_ROW_HEIGHT * (k : Int))) := by
  have hcalls : (draw_msg c s w l t now).drawn
      = ((s.listTexts.enum).filter (fun p => stillValid now p.2)).map
          (fun p => (⟨COL_LVL p.2.lvlDisp, l,
            t - c.WIN_ROW_HEIGHT - 2 * c.WIN_ROW_HEIGHT * (p.1 : Int), p.2.text,
            c.WIN_WIDTH⟩ : DrawCall)) := by
    rw [draw_msg_drawn, drawLoop_calls c l now _ _ 0]
    simp [List.enum]
  refine ⟨hcalls, ?_⟩
  intro hall
  rw [hcalls]
  have hfilter : (s.listTexts.enum).filter (fun p => stillValid now p.2) = s.listTexts.enum := by
    apply List.filter_eq_self.mpr
    intro p hp
    obtain ⟨hlt, heq⟩ := List.mem_enum hp
    rw [heq]
    exact hall _ (List.getElem_mem hlt)
  rw [hfilter, List.map_map]
  have hfun : ((fun d : DrawCall => d.y) ∘ fun p : Nat × dispTextTy =>
      (⟨COL_LVL p.2.lvlDisp, l, t - c.WIN_ROW_HEIGHT - 2 * c.WIN_ROW_HEIGHT * (p.1 : Int),
        p.2.text, c.WIN_WIDTH⟩ : DrawCall))
      = (fun k : Nat => t - c.WIN_ROW_HEIGHT - 2 * c.WIN_ROW_HEIGHT * (k : Int)) ∘ Prod.fst := by
    funext p
    rfl
  rw [hfun, ← List.map_map, List.enum_map_fst]

/-! ## Facts about `strrchr` and the file name -/

/-- `strrchr` returns a null pointer exactly when the character does not occur. -/
theorem strrchr_eq_none (s : CStr) (ch : Char) : strrchr s ch = none ↔ ch ∉ s := by
  induction s with
  | nil => simp [strrchr]
  | cons x rest ih =>
    cases h : strrchr rest ch with
    | some r =>
      have hmem : ch ∈ rest := by
        by_contra hn
        rw [ih.mpr hn] at h
        cases h
      simp [strrchr, h, hmem]
    | none =>
      have hn : ch ∉ rest := ih.mp h
      by_cases hx : x = ch
      · simp [strrchr, h, hx]
      · have hx2 : ¬ ch = x := fun e => hx e.symm
        simp [strrchr, h, hx, hx2, hn]

/-- A non-null result of `strrchr` starts at an occurrence of the character after which
the character does not occur again. -/
theorem strrchr_eq_some (s : CStr) (ch : Char) (r : CStr) (h : strrchr s ch = some r) :
    ∃ front tail : CStr, s = front ++ ch :: tail ∧ r = ch :: tail ∧ ch ∉ tail := by
  induction s generalizing r with
  | nil => simp [strrchr] at h
  | cons x rest ih =>
    cases hrest : strrchr rest ch with
    | some r1 =>
      simp only [strrchr, hrest] at h
      obtain ⟨front, tail, h1, h2, h3⟩ := ih r1 hrest
      refine ⟨x :: front, tail, ?_, ?_, h3⟩
      · rw [h1]; rfl
      · rw [← Option.some.inj h, h2]
    | none =>
      have hn : ch ∉ rest := (strrchr_eq_none rest ch).mp hrest
      by_cases hx : x = ch
      · simp only [strrchr, hrest, hx, if_true] at h
        refine ⟨[], rest, ?_, ?_, hn⟩
        · rw [hx]; rfl
        · exact (Option.some.inj h).symm
      · simp [strrchr, hrest, hx] at h

/-- The file name taken from a path is its final component: what follows the last `/`,
or the whole path when it has no `/`. -/
theorem szFileOf_final_component (szPath : CStr) :
    ('/' ∈ szPath ∧ ∃ front : CStr, szPath = front ++ '/' :: szFileOf szPath
        ∧ '/' ∉ szFileOf szPath)
      ∨ ('/' ∉ szPath ∧ szFileOf szPath = szPath) := by
  cases h : strrchr szPath '/' with
  | none =>
    right
    exact ⟨(strrchr_eq_none szPath '/').mp h, by simp [szFileOf, h]⟩
  | some r =>
    left
    obtain ⟨front, tail, h1, h2, h3⟩ := strrchr_eq_some szPath '/' r h
    have hfile : szFileOf szPath = tail := by simp [szFileOf, h, h2]
    refine ⟨?_, front, ?_, ?_⟩
    · rw [h1]; simp
    · rw [hfile]; exact h1
    · rw [hfile]; exact h3

/-! ## Facts about the log buffer -/

/-- Both formats of the header end with a colon and a blank. -/
theorem logHeader_getLast (LIVE_TRAFFIC simTime szPath : CStr) (ln : Int) (szFunc : CStr)
    (lvl : logLevelTy) :
    (logHeader LIVE_TRAFFIC simTime szPath ln szFunc lvl).getLast? = some ' ' := by
  unfold logHeader
  split <;> rw [List.getLast?_append] <;> rfl

/-- With a null `args` the buffer holds what a message with empty expansion leaves. -/
theorem logBuffer_none (LIVE_TRAFFIC simTime szPath : CStr) (ln : Int) (szFunc : CStr)
    (lvl : logLevelTy) :
    logBuffer LIVE_TRAFFIC simTime szPath ln szFunc lvl none
      = logBuffer LIVE_TRAFFIC simTime szPath ln szFunc lvl (some []) := by
  simp [logBuffer, snprintf]

/-- When header and message together have at most 2046 characters nothing is cut. -/
theorem logBuffer_fit (LIVE_TRAFFIC simTime szPath : CStr) (ln : Int) (szFunc : CStr)
    (lvl : logLevelTy) (m : CStr)
    (hfit : (logHeader LIVE_TRAFFIC simTime szPath ln szFunc lvl).length + m.length ≤ 2046) :
    logBuffer LIVE_TRAFFIC simTime szPath ln szFunc lvl (some m)
      = logHeader LIVE_TRAFFIC simTime szPath ln szFunc lvl ++ m := by
  have h1 : snprintf aszMsgSize (logHeader LIVE_TRAFFIC simTime szPath ln szFunc lvl)
      = logHeader LIVE_TRAFFIC simTime szPath ln szFunc lvl := by
    unfold snprintf aszMsgSize
    apply List.take_of_length_le
    omega
  simp only [logBuffer, h1]
  congr 1
  unfold snprintf aszMsgSize
  apply List.take_of_length_le
  omega

/-- The buffer never holds more than 2047 characters before the newline is ensured. -/
theorem logBuffer_length_le (LIVE_TRAFFIC simTime szPath : CStr) (ln : Int) (szFunc : CStr)
    (lvl : logLevelTy) (msg : Option CStr) :
    (logBuffer LIVE_TRAFFIC simTime szPath ln szFunc lvl msg).length ≤ 2047 := by
  cases msg with
  | none =>
    simp only [logBuffer, snprintf, aszMsgSize, List.length_take]
    omega
  | some m =>
    simp only [logBuffer, snprintf, aszMsgSize, List.length_take, List.length_append]
    omega

/-- With a header of at most 2046 characters the buffer holds at most 2046 characters
before the newline is ensured: one byte is left for the newline. -/
theorem logBuffer_length_le_of_header (LIVE_TRAFFIC simTime szPath : CStr) (ln : Int)
    (szFunc : CStr) (lvl : logLevelTy) (msg : Option CStr)
    (hhdr : (logHeader LIVE_TRAFFIC simTime szPath ln szFunc lvl).length ≤ 2046) :
    (logBuffer LIVE_TRAFFIC simTime szPath ln szFunc lvl msg).length ≤ 2046 := by
  cases msg with
  | none =>
    simp only [logBuffer, snprintf, aszMsgSize, List.length_take]
    omega
  | some m =>
    simp only [logBuffer, snprintf, aszMsgSize, List.length_take, List.length_append]
    omega

/-- The returned string is the buffer text, followed by a newline when that text does not
end with one. -/
theorem GetLogString_eq (LIVE_TRAFFIC simTime szPath : CStr) (ln : Int) (szFunc : CStr)
    (lvl : logLevelTy) (msg : Option CStr) :
    GetLogString LIVE_TRAFFIC simTime szPath ln szFunc lvl msg
      = logBuffer LIVE_TRAFFIC simTime szPath ln szFunc lvl msg
        ++ (if (logBuffer LIVE_TRAFFIC simTime szPath ln szFunc lvl msg).getLast? = some '\n'
            then [] else ['\n']) := by
  unfold GetLogString
  by_cases h : (logBuffer LIVE_TRAFFIC simTime szPath ln szFunc lvl msg).getLast? = some '\n'
  · simp [h]
  · simp [h]

/-- With a header of at most 2046 characters the returned string, its terminating zero
included, lies within the 2048 bytes of `aszMsg`. -/
theorem GetLogString_length_le_of_header (LIVE_TRAFFIC simTime szPath : CStr) (ln : Int)
    (szFunc : CStr) (lvl : logLevelTy) (msg : Option CStr)
    (hhdr : (logHeader LIVE_TRAFFIC simTime szPath ln szFunc lvl).length ≤ 2046) :
    (GetLogString LIVE_TRAFFIC simTime szPath ln szFunc lvl msg).length + 1 ≤ aszMsgSize := by
  have hb := logBuffer_length_le_of_header LIVE_TRAFFIC simTime szPath ln szFunc lvl msg hhdr
  rw [GetLogString_eq]
  unfold aszMsgSize
  split
  · simp; omega
  · simp; omega

/-- A header of 2047 characters or more whose character at index 2046 is not a newline
makes the returned string 2048 characters long, whatever the message. -/
theorem GetLogString_length_of_long_header (LIVE_TRAFFIC simTime szPath : CStr) (ln : Int)
    (szFunc : CStr) (lvl : logLevelTy) (msg : Option CStr)
    (hlen : 2047 ≤ (logHeader LIVE_TRAFFIC simTime szPath ln szFunc lvl).length)
    (hlast : ((logHeader LIVE_TRAFFIC simTime szPath ln szFunc lvl).take 2047).getLast?
      ≠ some '\n') :
    (GetLogString LIVE_TRAFFIC simTime szPath ln szFunc lvl msg).length = 2048 := by
  have hbuf : logBuffer LIVE_TRAFFIC simTime szPath ln szFunc lvl msg
      = (logHeader LIVE_TRAFFIC simTime szPath ln szFunc lvl).take 2047 := by
    cases msg with
    | none => simp [logBuffer, snprintf, aszMsgSize]
    | some m =>
      have h0 : 2048 - min 2047 (logHeader LIVE_TRAFFIC simTime szPath ln szFunc lvl).length
          - 1 - 1 = 0 := by omega
      simp [logBuffer, snprintf, aszMsgSize, h0]
  rw [GetLogString_eq, hbuf]
  simp only [hlast, if_false, List.length_append, List.length_take, List.length_singleton]
  omega

/-- Below `logMSG` the header is product name, time, tag, file name, line number and
function, in this order. -/
theorem logHeader_below (LIVE_TRAFFIC simTime szPath : CStr) (ln : Int) (szFunc : CStr)
    (lvl : logLevelTy) (hlvl : lvl ≠ .logMSG) :
    logHeader LIVE_TRAFFIC simTime szPath ln szFunc lvl
      = LIVE_TRAFFIC ++ " ".toList ++ simTime ++ " ".toList ++ LOG_LEVEL lvl ++ " ".toList
          ++ szFileOf szPath ++ ":".toList ++ fmtInt ln ++ "/".toList ++ szFunc
          ++ ": ".toList := by
  have h : lvl.toNat < logLevelTy.logMSG.toNat := by
    cases lvl <;> simp [logLevelTy.toNat] at *
  simp only [logHeader, h, if_true]

/-- At `logMSG` the header is the product name, a colon and a blank. -/
theorem logHeader_msg (LIVE_TRAFFIC simTime szPath : CStr) (ln : Int) (szFunc : CStr) :
    logHeader LIVE_TRAFFIC simTime szPath ln szFunc .logMSG = LIVE_TRAFFIC ++ ": ".toList := by
  simp [logHeader, logLevelTy.toNat]

/-- The text after a header ends with a newline exactly when the message does. -/
theorem header_append_getLast (LIVE_TRAFFIC simTime szPath : CStr) (ln : Int)
    (szFunc : CStr) (lvl : logLevelTy) (m : CStr) :
    (logHeader LIVE_TRAFFIC simTime szPath ln szFunc lvl ++ m).getLast? = some '\n'
      ↔ m.getLast? = some '\n' := by
  rw [List.getLast?_append, logHeader_getLast]
  cases h : m.getLast? with
  | none => simp
  | some ch => simp

/-- When header and message fit, the returned string is the header, the message, and a
newline unless the message ends with one. -/
theorem GetLogString_fit (LIVE_TRAFFIC simTime szPath : CStr) (ln : Int) (szFunc : CStr)
    (lvl : logLevelTy) (msg : Option CStr)
    (hfit : (logHeader LIVE_TRAFFIC simTime szPath ln szFunc lvl).length
      + (msg.getD []).length ≤ 2046) :
    GetLogString LIVE_TRAFFIC simTime szPath ln szFunc lvl msg
      = logHeader LIVE_TRAFFIC simTime szPath ln szFunc lvl ++ msg.getD []
        ++ (if (msg.getD []).getLast? = some '\n' then [] else ['\n']) := by
  have hbuf : logBuffer LIVE_TRAFFIC simTime szPath ln szFunc lvl msg
      = logHeader LIVE_TRAFFIC simTime szPath ln szFunc lvl ++ msg.getD [] := by
    cases msg with
    | none =>
      rw [logBuffer_none]
      exact logBuffer_fit _ _ _ _ _ _ [] hfit
    | some m => exact logBuffer_fit _ _ _ _ _ _ m hfit
  rw [GetLogString_eq, hbuf]
  by_cases h : (msg.getD []).getLast? = some '\n'
  · simp only [(header_append_getLast _ _ _ _ _ _ _).mpr h, h, if_true]
  · have h2 := mt (header_append_getLast LIVE_TRAFFIC simTime szPath ln szFunc lvl
      (msg.getD [])).mp h
    simp only [h2, h, if_false]

/-- The buffer text starts with the header as far as 2047 characters hold it. -/
theorem logBuffer_starts_with_header (LIVE_TRAFFIC simTime szPath : CStr) (ln : Int)
    (szFunc : CStr) (lvl : logLevelTy) (msg : Option CStr) :
    (logHeader LIVE_TRAFFIC simTime szPath ln szFunc lvl).take 2047
      <+: GetLogString LIVE_TRAFFIC simTime szPath ln szFunc lvl msg := by
  rw [GetLogString_eq]
  cases msg with
  | none =>
    simp only [logBuffer, snprintf, aszMsgSize]
    exact ⟨_, rfl⟩
  | some m =>
    simp only [logBuffer, snprintf, aszMsgSize, List.append_assoc]
    exact ⟨_, rfl⟩

/-- Cutting `front ++ replicate n ch ++ back` inside the run of `ch` leaves a text whose
last character is `ch`. -/
theorem take_getLast_replicate (front back : CStr) (ch : Char) (n k : Nat)
    (hk1 : front.length < k) (hk2 : k ≤ front.length + n) :
    ((front ++ List.replicate n ch ++ back).take k).getLast? = some ch := by
  have hlen : ((front ++ List.replicate n ch ++ back).take k).length = k := by
    simp only [List.length_take, List.length_append, List.length_replicate]
    omega
  rw [List.getLast?_eq_getElem?, hlen, List.getElem?_take_of_lt (by omega),
    List.append_assoc, List.getElem?_append_right (by omega),
    List.getElem?_append_left (by simp only [List.length_replicate]; omega),
    List.getElem?_replicate]
  have : k - 1 - front.length < n := by omega
  simp [this]

/-- The newline test on header followed by message depends on the message alone. -/
theorem header_append_two_newlines (LIVE_TRAFFIC simTime szPath : CStr) (ln : Int)
    (szFunc : CStr) (lvl : logLevelTy) (m : CStr) :
    EndsWithTwoNewlines (logHeader LIVE_TRAFFIC simTime szPath ln szFunc lvl ++ m)
      ↔ EndsWithTwoNewlines m := by
  unfold EndsWithTwoNewlines
  rw [header_append_getLast]
  by_cases hm : m = []
  · subst hm
    simp
  · rw [List.dropLast_append_of_ne_nil _ hm, header_append_getLast]

/-! ## Trailing newline -/

/-- C7, as stated, fails: a message that ends with two newlines gives a line that ends
with two newlines. -/
theorem GetLogString_keeps_double_newline :
    GetLogString "LiveTraffic".toList "12.3".toList "Src/TextIO.cpp".toList 42 "main".toList
        .logINFO (some "hi\n\n".toList)
      = "LiveTraffic 12.3 INFO  TextIO.cpp:42/main: hi\n\n".toList
    ∧ ¬ EndsWithOneNewline (GetLogString "LiveTraffic".toList "12.3".toList
        "Src/TextIO.cpp".toList 42 "main".toList .logINFO (some "hi\n\n".toList)) := by
  constructor
  · decide
  · unfold EndsWithOneNewline
    decide

/-- C7 as amended: when the header has at most 2046 characters, the string returned by
`GetLogString` lies within the buffer and ends with a newline; the code appends one
newline when the text in the buffer does not end with one and appends nothing otherwise,
so the string ends with exactly one newline if and only if the text in the buffer does not
end with two newlines; when header and message fit in 2046 characters, that is if and only
if the formatted message does not end with two newlines. -/
theorem GetLogString_trailing_newline (LIVE_TRAFFIC simTime szPath : CStr) (ln : Int)
    (szFunc : CStr) (lvl : logLevelTy) (msg : Option CStr)
    (hhdr : (logHeader LIVE_TRAFFIC simTime szPath ln szFunc lvl).length ≤ 2046) :
    (GetLogString LIVE_TRAFFIC simTime szPath ln szFunc lvl msg).length + 1 ≤ aszMsgSize
      ∧ (GetLogString LIVE_TRAFFIC simTime szPath ln szFunc lvl msg).getLast? = some '\n'
      ∧ GetLogString LIVE_TRAFFIC simTime szPath ln szFunc lvl msg
          = logBuffer LIVE_TRAFFIC simTime szPath ln szFunc lvl msg
            ++ (if (logBuffer LIVE_TRAFFIC simTime szPath ln szFunc lvl msg).getLast?
                  = some '\n' then [] else ['\n'])
      ∧ (EndsWithOneNewline (GetLogString LIVE_TRAFFIC simTime szPath ln szFunc lvl msg)
          ↔ ¬ EndsWithTwoNewlines (logBuffer LIVE_TRAFFIC simTime szPath ln szFunc lvl msg))
      ∧ ((logHeader LIVE_TRAFFIC simTime szPath ln szFunc lvl).length
            + (msg.getD []).length ≤ 2046 →
          (EndsWithOneNewline (GetLogString LIVE_TRAFFIC simTime szPath ln szFunc lvl msg)
            ↔ ¬ EndsWithTwoNewlines (msg.getD []))) := by
  have hiff : EndsWithOneNewline (GetLogString LIVE_TRAFFIC simTime szPath ln szFunc lvl msg)
      ↔ ¬ EndsWithTwoNewlines (logBuffer LIVE_TRAFFIC simTime szPath ln szFunc lvl msg) := by
    rw [GetLogString_eq]
    unfold EndsWithOneNewline EndsWithTwoNewlines
    by_cases h : (logBuffer LIVE_TRAFFIC simTime szPath ln szFunc lvl msg).getLast?
        = some '\n'
    · simp [h]
    · simp [h]
  refine ⟨GetLogString_length_le_of_header _ _ _ _ _ _ _ hhdr, ?_, GetLogString_eq _ _ _ _ _ _ _,
    hiff, ?_⟩
  · rw [GetLogString_eq]
    by_cases h : (logBuffer LIVE_TRAFFIC simTime szPath ln szFunc lvl msg).getLast?
        = some '\n'
    · simp [h]
    · simp [h]
  · intro hfit
    rw [hiff]
    have hbuf : logBuffer LIVE_TRAFFIC simTime szPath ln szFunc lvl msg
        = logHeader LIVE_TRAFFIC simTime szPath ln szFunc lvl ++ msg.getD [] := by
      cases msg with
      | none =>
        rw [logBuffer_none]
        exact logBuffer_fit _ _ _ _ _ _ [] hfit
      | some m => exact logBuffer_fit _ _ _ _ _ _ m hfit
    rw [hbuf, header_append_two_newlines]

/-- Instance of C7 as amended: a message without newline and a message with one newline
both give a line that ends with exactly one newline. -/
theorem GetLogString_trailing_newline_witness :
    (logHeader "LiveTraffic".toList "12.3".toList "Src/TextIO.cpp".toList 42 "main".toList
        .logINFO).length ≤ 2046
      ∧ (GetLogString "LiveTraffic".toList "12.3".toList "Src/TextIO.cpp".toList 42
          "main".toList .logINFO (some "hi".toList)).getLast? = some '\n'
      ∧ GetLogString "LiveTraffic".toList "12.3".toList "Src/TextIO.cpp".toList 42
          "main".toList .logINFO (some "hi".toList)
        = "LiveTraffic 12.3 INFO  TextIO.cpp:42/main: hi\n".toList
      ∧ GetLogString "LiveTraffic".toList "12.3".toList "Src/TextIO.cpp".toList 42
          "main".toList .logINFO (some "hi\n".toList)
        = "LiveTraffic 12.3 INFO  TextIO.cpp:42/main: hi\n".toList := by
  have h := GetLogString_trailing_newline "LiveTraffic".toList "12.3".toList
    "Src/TextIO.cpp".toList 42 "main".toList .logINFO (some "hi".toList) (by decide)
  exact ⟨by decide, h.2.1, by decide, by decide⟩

/-! ## Buffer bound -/

/-- C8 fails on the code: with a function name of 2047 characters the header alone fills
the buffer, the message gets no room, and the newline and the terminating zero are then
stored at indices 2047 and 2048: the returned string has 2048 characters and needs 2049
bytes, one more than `aszMsg` has. -/
theorem GetLogString_overflows_buffer :
    (GetLogString "LiveTraffic".toList "12.3".toList "Src/TextIO.cpp".toList 42
        (List.replicate 2047 'f') .logDEBUG none).length = 2048
      ∧ ¬ ((GetLogString "LiveTraffic".toList "12.3".toList "Src/TextIO.cpp".toList 42
        (List.replicate 2047 'f') .logDEBUG none).length + 1 ≤ aszMsgSize) := by
  have hhead : logHeader "LiveTraffic".toList "12.3".toList "Src/TextIO.cpp".toList 42
      (List.replicate 2047 'f') .logDEBUG
      = "LiveTraffic 12.3 DEBUG TextIO.cpp:42/".toList ++ List.replicate 2047 'f'
          ++ ": ".toList := by
    rw [logHeader_below _ _ _ _ _ _ (by decide)]
    have hfront : "LiveTraffic".toList ++ " ".toList ++ "12.3".toList ++ " ".toList
        ++ LOG_LEVEL .logDEBUG ++ " ".toList ++ szFileOf "Src/TextIO.cpp".toList
        ++ ":".toList ++ fmtInt 42 ++ "/".toList
        = "LiveTraffic 12.3 DEBUG TextIO.cpp:42/".toList := by decide
    rw [hfront]
  have hfrontlen : ("LiveTraffic 12.3 DEBUG TextIO.cpp:42/".toList).length = 37 := by decide
  have hlen : (GetLogString "LiveTraffic".toList "12.3".toList "Src/TextIO.cpp".toList 42
      (List.replicate 2047 'f') .logDEBUG none).length = 2048 := by
    apply GetLogString_length_of_long_header
    · rw [hhead]
      simp only [List.length_append, List.length_replicate, hfrontlen]
      omega
    · rw [hhead, take_getLast_replicate _ _ _ _ _ (by rw [hfrontlen]; omega)
        (by rw [hfrontlen]; omega)]
      decide
  refine ⟨hlen, ?_⟩
  rw [hlen]
  decide

/-! ## File name and form of the line -/

/-- C9: for every path the file name handed to the formatter is the final component of
the path: what follows the last `/` (the path is a front part, `/` and the name, and the
name has no `/`), or the whole path when it has no `/`.  Below `logMSG` the header is
product name, time, tag, that file name, line number and function; the line starts with
the header as far as the buffer holds it, and when header and message fit the line is the
header, the message and the closing newline.  At `logMSG` the line does not depend on
time, path, line number or function, and when it fits it is the product name, a colon, a
blank, the message and the closing newline (the message's own when it ends with one). -/
theorem GetLogString_file_and_form (LIVE_TRAFFIC simTime szPath : CStr) (ln : Int)
    (szFunc : CStr) (lvl : logLevelTy) (msg : Option CStr) :
    (('/' ∈ szPath ∧ ∃ front : CStr, szPath = front ++ '/' :: szFileOf szPath
          ∧ '/' ∉ szFileOf szPath)
        ∨ ('/' ∉ szPath ∧ szFileOf szPath = szPath))
      ∧ (lvl ≠ .logMSG →
          logHeader LIVE_TRAFFIC simTime szPath ln szFunc lvl
              = LIVE_TRAFFIC ++ " ".toList ++ simTime ++ " ".toList ++ LOG_LEVEL lvl
                ++ " ".toList ++ szFileOf szPath ++ ":".toList ++ fmtInt ln ++ "/".toList
                ++ szFunc ++ ": ".toList
            ∧ (logHeader LIVE_TRAFFIC simTime szPath ln szFunc lvl).take 2047
                <+: GetLogString LIVE_TRAFFIC simTime szPath ln szFunc lvl msg
            ∧ ((logHeader LIVE_TRAFFIC simTime szPath ln szFunc lvl).length
                  + (msg.getD []).length ≤ 2046 →
                GetLogString LIVE_TRAFFIC simTime szPath ln szFunc lvl msg
                  = LIVE_TRAFFIC ++ " ".toList ++ simTime ++ " ".toList ++ LOG_LEVEL lvl
                    ++ " ".toList ++ szFileOf szPath ++ ":".toList ++ fmtInt ln
                    ++ "/".toList ++ szFunc ++ ": ".toList ++ msg.getD []
                    ++ (if (msg.getD []).getLast? = some '\n' then [] else ['\n'])))
      ∧ (lvl = .logMSG →
          (∀ (simTime1 szPath1 : CStr) (ln1 : Int) (szFunc1 : CStr),
              GetLogString LIVE_TRAFFIC simTime1 szPath1 ln1 szFunc1 .logMSG msg
                = GetLogString LIVE_TRAFFIC simTime szPath ln szFunc lvl msg)
            ∧ (LIVE_TRAFFIC.length + 2 + (msg.getD []).length ≤ 2046 →
                GetLogString LIVE_TRAFFIC simTime szPath ln szFunc lvl msg
                  = LIVE_TRAFFIC ++ ": ".toList ++ msg.getD []
                    ++ (if (msg.getD []).getLast? = some '\n' then [] else ['\n']))) := by
  refine ⟨szFileOf_final_component szPath, ?_, ?_⟩
  · intro hlvl
    refine ⟨logHeader_below _ _ _ _ _ _ hlvl, logBuffer_starts_with_header _ _ _ _ _ _ _, ?_⟩
    intro hfit
    rw [GetLogString_fit _ _ _ _ _ _ _ hfit, logHeader_below _ _ _ _ _ _ hlvl]
  · intro hlvl
    subst hlvl
    constructor
    · intro simTime1 szPath1 ln1 szFunc1
      simp only [GetLogString, logBuffer, logHeader_msg]
    · intro hfit
      have hfit2 : (logHeader LIVE_TRAFFIC simTime szPath ln szFunc .logMSG).length
          + (msg.getD []).length ≤ 2046 := by
        rw [logHeader_msg]
        simp only [List.length_append]
        have : (": ".toList).length = 2 := by decide
        omega
      rw [GetLogString_fit _ _ _ _ _ _ _ hfit2, logHeader_msg]

/-- Instance of C9: the path `Src/TextIO.cpp` gives the file name `TextIO.cpp` in a WARN
line, and a `logMSG` line has the product name and the message only. -/
theorem GetLogString_file_and_form_witness :
    szFileOf "/Users/dev/LiveTraffic/Src/TextIO.cpp".toList = "TextIO.cpp".toList
      ∧ szFileOf "TextIO.cpp".toList = "TextIO.cpp".toList
      ∧ GetLogString "LiveTraffic".toList "12.3".toList
          "/Users/dev/LiveTraffic/Src/TextIO.cpp".toList 42 "main".toList .logWARN
          (some "disk at 90%".toList)
        = "LiveTraffic 12.3 WARN  TextIO.cpp:42/main: disk at 90%\n".toList
      ∧ GetLogString "LiveTraffic".toList "12.3".toList
          "/Users/dev/LiveTraffic/Src/TextIO.cpp".toList 42 "main".toList .logMSG
          (some "disk at 90%".toList)
        = "LiveTraffic: disk at 90%\n".toList := by
  have h := GetLogString_file_and_form "LiveTraffic".toList "12.3".toList
    "/Users/dev/LiveTraffic/Src/TextIO.cpp".toList 42 "main".toList .logWARN
    (some "disk at 90%".toList)
  have hw := (h.2.1 (by decide)).2.2 (by decide)
  have hm := ((GetLogString_file_and_form "LiveTraffic".toList "12.3".toList
    "/Users/dev/LiveTraffic/Src/TextIO.cpp".toList 42 "main".toList .logMSG
    (some "disk at 90%".toList)).2.2 rfl).2 (by decide)
  refine ⟨by decide, by decide, ?_, ?_⟩
  · rw [hw]; decide
  · rw [hm]; decide

end LiveTraffic
